import Mathlib

/-!
Shallow embedding of the Symphonia music-player front-end
(`src/app.js` / `src/unnamed/part_000`): catalog normalization
(`fetchTracks`), the playback queue engine (`buildInitialShuffleOrder`,
`shuffleArray`, `skipTrack`, `playTrackFromIndex`, `toggleShuffle`,
`loadTrackByIndex`, `renderUpNext`) and the playlist store
(`loadPlaylistsFromStorage`, `savePlaylistsToStorage`,
`createNewPlaylist`, `handleAddTrackToPlaylist`).

DOM writes, audio-element commands, console logging and the visualizer
are external side effects and are not part of the state; every function
below models exactly the mutations the JS performs on the `state`
object, plus (for the playlist store) the list of payloads written to
`localStorage`.  `Math.random()` is modelled by an oracle
`rand : Nat → Nat`; the JS draw `Math.floor(Math.random() * (i + 1))`
lands in `[0, i]`, which the embedding renders as `rand i % (i + 1)`.
-/

namespace Symphonia

/-- A normalized track as built by `fetchTracks` (part_000 lines 152-161):
the same URL is stored under `src`, `url` and `link`. -/
structure Track where
  id : String
  title : String
  artist : String
  cover : String
  album : String
  src : String
  url : String
  link : String
deriving DecidableEq

/-- A playlist record `{ id, name, trackIds }`. -/
structure Playlist where
  id : String
  name : String
  trackIds : List Nat
deriving DecidableEq

/-- The mutable `state` object (part_000 lines 8-19).  JS objects keep
string keys in insertion order, so `playlists` is an association list.
`orderIndex` is an `Int` because `skipTrack` lets it go transiently
negative before the range check. -/
structure PlayerState where
  tracks : List Track
  shuffledOrder : List Nat
  orderIndex : Int
  currentTrackIndex : Option Nat
  isPlaying : Bool
  repeatMode : String
  shuffleEnabled : Bool
  playlists : List (String × Playlist)
  activePlaylistId : Option String
deriving DecidableEq

/-- Strip leading and trailing whitespace from a character list. -/
def trimChars (l : List Char) : List Char :=
  ((l.dropWhile Char.isWhitespace).reverse.dropWhile Char.isWhitespace).reverse

/-- JS `String.prototype.trim()`: strip leading/trailing whitespace. -/
def jsTrim (s : String) : String := ⟨trimChars s.data⟩

/-- JS `a || b` for strings: the empty string is falsy. -/
def jsOr (a b : String) : String := if a = "" then b else a

/-- JS `a || b` where `a` may be absent (`undefined`/missing field). -/
def jsOrOpt (o : Option String) (d : String) : String :=
  match o with
  | some s => jsOr s d
  | none => d

/-! ## Catalog normalization (`fetchTracks`, part_000 lines 134-164) -/

/-- A raw record from the JSON catalog; every recognized field may be
absent. -/
structure RawTrack where
  id : Option String
  title : Option String
  artist : Option String
  cover : Option String
  album : Option String
  url : Option String
  link : Option String
deriving DecidableEq

/-- `const url = (t.url || t.link || "").toString().trim()`. -/
def srcOf (t : RawTrack) : String :=
  jsTrim (jsOrOpt t.url (jsOrOpt t.link ""))

/-- The normalized shape pushed for an accepted record at original
position `idx` (part_000 lines 145-161). -/
def normalizeOne (idx : Nat) (t : RawTrack) : Track :=
  let url := srcOf t
  { id := jsOrOpt t.id ("t" ++ toString (idx + 1))
    title := jsOrOpt t.title "Untitled"
    artist := jsOrOpt t.artist "Unknown artist"
    cover := jsOr (jsTrim (jsOrOpt t.cover "")) ""
    album := jsOrOpt t.album ""
    src := url
    url := url
    link := url }

/-- The `raw.forEach` loop of `fetchTracks`: accumulates the normalized
list and the `skipped` counter, `idx` tracking the original position. -/
def normAux : Nat → List RawTrack → List Track × Nat
  | _, [] => ([], 0)
  | idx, t :: ts =>
    let rest := normAux (idx + 1) ts
    if srcOf t = "" then (rest.1, rest.2 + 1)
    else (normalizeOne idx t :: rest.1, rest.2)

/-- The normalization performed by `fetchTracks` on the decoded raw
list: the new catalog together with the skip count. -/
def fetchNormalize (raw : List RawTrack) : List Track × Nat :=
  normAux 0 raw

/-! ## Fisher–Yates shuffle (`shuffleArray`, part_000 lines 212-219) -/

/-- `[a[i], a[j]] = [a[j], a[i]]`: swap positions `i` and `j`.  In the
source both indices are always in bounds; out-of-bounds indices leave
the list unchanged. -/
def listSwap (a : List Nat) (i j : Nat) : List Nat :=
  match a.get? i, a.get? j with
  | some x, some y => (a.set i y).set j x
  | _, _ => a

/-- The loop `for (let i = a.length - 1; i > 0; i--)`: `fyAux rand i a`
runs the iterations for counters `i, i-1, ..., 1`, each drawing
`j = rand i % (i + 1) ∈ [0, i]` and swapping. -/
def fyAux (rand : Nat → Nat) : Nat → List Nat → List Nat
  | 0, a => a
  | i + 1, a => fyAux rand i (listSwap a (i + 1) (rand (i + 1) % (i + 2)))

/-- `shuffleArray(arr)`: copy, then Fisher–Yates from the top. -/
def shuffleArray (rand : Nat → Nat) (arr : List Nat) : List Nat :=
  fyAux rand (arr.length - 1) arr

/-- `buildInitialShuffleOrder()` (part_000 lines 206-210): shuffles the
full index range — unconditionally, whatever `shuffleEnabled` is — and
resets `orderIndex` to 0. -/
def buildInitialShuffleOrder (rand : Nat → Nat) (s : PlayerState) : PlayerState :=
  { s with
    shuffledOrder := shuffleArray rand (List.range s.tracks.length)
    orderIndex := 0 }

/-! ## Playback (`loadTrackByIndex`, `skipTrack`, `playTrackFromIndex`,
`toggleShuffle`) -/

/-- `let src = track.src || track.url || track.link || ""` then
`String(src).trim()` (part_000 lines 466-467). -/
def trackSrc (t : Track) : String :=
  jsTrim (jsOr t.src (jsOr t.url (jsOr t.link "")))

/-- `loadTrackByIndex(index, autoplay)` (part_000 lines 447-511): state
effects only — validates the index, rejects tracks with no usable
source, and otherwise sets `currentTrackIndex`.  Audio/DOM commands are
external. -/
def loadTrackByIndex (s : PlayerState) (index : Int) (autoplay : Bool) : PlayerState :=
  if index < 0 ∨ (s.tracks.length : Int) ≤ index then s
  else
    match s.tracks.get? index.toNat with
    | none => s
    | some track =>
      let src := trackSrc track
      if src = "" ∨ src = "undefined" then s
      else { s with currentTrackIndex := some index.toNat }

/-- `skipTrack(direction)` (part_000 lines 562-586). -/
def skipTrack (rand : Nat → Nat) (s : PlayerState) (direction : Int) : PlayerState :=
  if s.tracks.length = 0 then s
  else if s.shuffleEnabled ∧ s.shuffledOrder.length ≠ 0 then
    let s1 := { s with orderIndex := s.orderIndex + direction }
    let s2 :=
      if s1.orderIndex < 0 ∨ (s1.shuffledOrder.length : Int) ≤ s1.orderIndex then
        buildInitialShuffleOrder rand s1
      else s1
    let idx := s2.shuffledOrder.getD s2.orderIndex.toNat 0
    loadTrackByIndex s2 (idx : Int) true
  else
    let n0 : Int := (s.currentTrackIndex.getD 0 : Nat)
    let n1 : Int := n0 + direction
    let n2 : Int := if n1 < 0 then (s.tracks.length : Int) - 1 else n1
    let n3 : Int := if (s.tracks.length : Int) ≤ n2 then 0 else n2
    loadTrackByIndex s n3 true

/-- `playTrackFromIndex(index)` (part_000 lines 426-445). -/
def playTrackFromIndex (rand : Nat → Nat) (s : PlayerState) (index : Nat) : PlayerState :=
  match s.tracks.get? index with
  | none => s
  | some _ =>
    let s1 := if s.shuffledOrder.contains index then s else buildInitialShuffleOrder rand s
    let s2 := { s1 with currentTrackIndex := some index }
    let s3 :=
      match s2.shuffledOrder.indexOf? index with
      | some k => { s2 with orderIndex := (k : Int) }
      | none => s2
    loadTrackByIndex s3 (index : Int) true

/-- `toggleShuffle()` (part_000 lines 588-598): always flips the flag;
rebuilds the order only when turning shuffle on. -/
def toggleShuffle (rand : Nat → Nat) (s : PlayerState) : PlayerState :=
  let s1 := { s with shuffleEnabled := !s.shuffleEnabled }
  if s1.shuffleEnabled then buildInitialShuffleOrder rand s1 else s1

/-! ## Up-next preview (`renderUpNext`, part_000 lines 277-332)

The list the DOM renders is exactly `list` as built by the two loops;
both loops are modelled with explicit fuel (one unit per iteration of
the `while` condition check), `none` meaning the loop did not finish
within the given fuel. -/

/-- `const MAX_NEXT = 6`. -/
def MAX_NEXT : Nat := 6

/-- The shuffle-enabled loop:
`while (list.length < MAX_NEXT && order.length > 0) { idx = order[start % order.length]; if (!list.includes(idx)) list.push(idx); start++ }`. -/
def upNextShuffle (order : List Nat) : Nat → Nat → List Nat → Option (List Nat)
  | 0, _, _ => none
  | fuel + 1, start, list =>
    if list.length < MAX_NEXT ∧ 0 < order.length then
      let idx := order.getD (start % order.length) 0
      let list1 := if list.contains idx then list else list ++ [idx]
      upNextShuffle order fuel (start + 1) list1
    else some list

/-- The shuffle-disabled loop over catalog positions, bound
`Math.min(MAX_NEXT, n - 1)`:
`while (list.length < bound) { if (!list.includes(idx)) list.push(idx); idx = (idx + 1) % n }`. -/
def upNextLinear (n bound : Nat) : Nat → Nat → List Nat → Option (List Nat)
  | 0, _, _ => none
  | fuel + 1, idx, list =>
    if list.length < bound then
      let list1 := if list.contains idx then list else list ++ [idx]
      upNextLinear n bound fuel ((idx + 1) % n) list1
    else some list

/-- The shuffle-off starting position:
`state.currentTrackIndex == null ? 0 : (state.currentTrackIndex + 1) % state.tracks.length`. -/
def upNextStart (s : PlayerState) : Nat :=
  match s.currentTrackIndex with
  | none => 0
  | some c => (c + 1) % s.tracks.length

/-- The up-next index list computed by `renderUpNext()`; `some []` for
the early return on an empty catalog. -/
def renderUpNextList (s : PlayerState) (fuel : Nat) : Option (List Nat) :=
  if s.tracks.length = 0 then some []
  else if s.shuffleEnabled ∧ s.shuffledOrder.length ≠ 0 then
    upNextShuffle s.shuffledOrder fuel (s.orderIndex.toNat + 1) []
  else
    upNextLinear s.tracks.length (min MAX_NEXT (s.tracks.length - 1)) fuel
      (upNextStart s) []

/-- `renderUpNext()` as a state transition: it only reads the state (the
loops touch local variables `list`, `start`, `idx` only) and renders to
the DOM, so the resulting state is the input state. -/
def renderUpNext (s : PlayerState) (fuel : Nat) : Option (List Nat) × PlayerState :=
  (renderUpNextList s fuel, s)

/-! ## Playlist store (part_000 lines 621-764) -/

/-- JS object property write `m[k] = v`: replaces in place when the key
exists, otherwise appends (insertion order preserved). -/
def objSet (m : List (String × Playlist)) (k : String) (v : Playlist) :
    List (String × Playlist) :=
  if m.any (fun p => p.1 == k) then
    m.map (fun p => if p.1 == k then (k, v) else p)
  else m ++ [(k, v)]

/-- JS object property read `m[k]`. -/
def objLookup (m : List (String × Playlist)) (k : String) : Option Playlist :=
  (m.find? (fun p => p.1 == k)).map (fun p => p.2)

/-- `Object.keys(m)`. -/
def objKeys (m : List (String × Playlist)) : List String :=
  m.map (fun p => p.1)

/-- The JSON blob stored under `PLAYLIST_STORAGE_KEY`; each field may be
missing from the parsed object (`parsed.playlists || {}`,
`parsed.activePlaylistId || ...`). -/
structure StorageBlob where
  playlists : Option (List (String × Playlist))
  activePlaylistId : Option String
deriving DecidableEq

/-- A `localStorage.setItem` payload for the playlist key:
`{ playlists, activePlaylistId }`. -/
def savePayload (s : PlayerState) : List (String × Playlist) × Option String :=
  (s.playlists, s.activePlaylistId)

/-- JS truthiness for an optional string (`undefined`, `null` and `""`
are falsy). -/
def truthyStr (o : Option String) : Option String :=
  match o with
  | some a => if a = "" then none else some a
  | none => none

/-- `loadPlaylistsFromStorage()` (part_000 lines 621-643).  `stored`
models the storage read: `none` = `getItem` returned null (absent),
`some none` = present but `JSON.parse` throws (corrupt; the `catch`
only logs), `some (some blob)` = parses to `blob`.  `freshId` models the
`generateId()` draw.  Returns the new state and the list of payloads
written to storage (this function writes none). -/
def loadPlaylistsFromStorage (freshId : String)
    (stored : Option (Option StorageBlob)) (s : PlayerState) :
    PlayerState × List (List (String × Playlist) × Option String) :=
  match stored with
  | none =>
    let fav : Playlist := { id := freshId, name := "Favorites", trackIds := [] }
    ({ s with playlists := objSet s.playlists freshId fav
              activePlaylistId := some freshId }, [])
  | some none => (s, [])
  | some (some blob) =>
    let pls := blob.playlists.getD []
    let active :=
      match truthyStr blob.activePlaylistId with
      | some a => some a
      | none => (objKeys pls).head?
    ({ s with playlists := pls, activePlaylistId := active }, [])

/-- `savePlaylistsToStorage()` (part_000 lines 645-655): serializes the
current snapshot; mutates nothing. -/
def savePlaylistsToStorage (s : PlayerState) :
    PlayerState × List (List (String × Playlist) × Option String) :=
  (s, [savePayload s])

/-- `createNewPlaylist()` (part_000 lines 718-731); `name` is the
`prompt` result (`none` = cancelled) and `newId` the `generateId()`
draw.  `if (!name) return` covers both cancel and the empty string. -/
def createNewPlaylist (name : Option String) (newId : String) (s : PlayerState) :
    PlayerState × List (List (String × Playlist) × Option String) :=
  match truthyStr name with
  | none => (s, [])
  | some n =>
    let pl : Playlist := { id := newId, name := n.trim, trackIds := [] }
    let s1 := { s with playlists := objSet s.playlists newId pl
                       activePlaylistId := some newId }
    (s1, [savePayload s1])

/-- The target-resolution phase of `handleAddTrackToPlaylist`
(part_000 lines 734-751): take the truthy active id; otherwise fall back
to the first existing playlist, or auto-create a "Favorites" playlist
(with the fresh `generateId()` draw `favId`) when none exist. -/
def resolveAddTarget (favId : String) (s : PlayerState) : PlayerState × String :=
  match truthyStr s.activePlaylistId with
  | some tid => (s, tid)
  | none =>
    match objKeys s.playlists with
    | [] =>
      ({ s with playlists := objSet s.playlists favId ⟨favId, "Favorites", []⟩
                activePlaylistId := some favId }, favId)
    | firstId :: _ =>
      ({ s with activePlaylistId := some firstId }, firstId)

/-- The push phase of `handleAddTrackToPlaylist` (part_000 lines
753-756) applied to the resolution result and the fetched playlist. -/
def addResult (favId : String) (s : PlayerState) (trackIndex : Nat)
    (pl : Playlist) : PlayerState :=
  { (resolveAddTarget favId s).1 with
    playlists := objSet (resolveAddTarget favId s).1.playlists
      (resolveAddTarget favId s).2
      (if pl.trackIds.contains trackIndex then pl
       else { pl with trackIds := pl.trackIds ++ [trackIndex] }) }

/-- `handleAddTrackToPlaylist(trackIndex)` (part_000 lines 733-760).
`favId` models the `generateId()` draw for the auto-created fallback
playlist.  Returns `none` when the JS would throw a `TypeError`
(`state.playlists[targetId]` is `undefined` yet `.trackIds` is read). -/
def handleAddTrackToPlaylist (favId : String) (s : PlayerState) (trackIndex : Nat) :
    Option (PlayerState × List (List (String × Playlist) × Option String)) :=
  match objLookup (resolveAddTarget favId s).1.playlists
      (resolveAddTarget favId s).2 with
  | none => none
  | some pl =>
    some (addResult favId s trackIndex pl,
      [savePayload (addResult favId s trackIndex pl)])

/-- The playlist-sidebar click handler (part_000 lines 672-677): sets
the clicked playlist active and persists; the UI only offers playlists
present in the collection. -/
def selectPlaylist (s : PlayerState) (id : String) :
    PlayerState × List (List (String × Playlist) × Option String) :=
  let s1 := { s with activePlaylistId := some id }
  (s1, [savePayload s1])

/-- The Playlist Store invariant claimed by the spec: a (truthy) active
playlist id always keys an existing playlist. -/
def activeValid (s : PlayerState) : Prop :=
  ∀ a, truthyStr s.activePlaylistId = some a → a ∈ objKeys s.playlists

/-! ## Concrete sample data for witnesses and counterexamples -/

/-- A degenerate `Math.random` oracle that always draws 0. -/
def rand0 : Nat → Nat := fun _ => 0

/-- A normalized track whose three URL fields all hold `u`. -/
def sampleTrack (u : String) : Track :=
  { id := "t1", title := "T", artist := "A", cover := "", album := ""
    src := u, url := u, link := u }

/-- The engine state right after startup, before any catalog loads. -/
def baseState : PlayerState :=
  { tracks := [], shuffledOrder := [], orderIndex := 0
    currentTrackIndex := none, isPlaying := false, repeatMode := "off"
    shuffleEnabled := true, playlists := [], activePlaylistId := none }

/-- Three-track catalog (for the C1 witness). -/
def stateThree : PlayerState :=
  { baseState with
    tracks := [sampleTrack "a.mp3", sampleTrack "b.mp3", sampleTrack "c.mp3"] }

/-- Two-track catalog with shuffle disabled (for the C10
counterexample). -/
def stateTwoOff : PlayerState :=
  { baseState with
    tracks := [sampleTrack "a.mp3", sampleTrack "b.mp3"]
    shuffleEnabled := false, shuffledOrder := [0, 1] }

/-- Five-track catalog, shuffle off, currently at index 3 (the spec's
wrap-around scenario, for the C2 witness). -/
def stateFive : PlayerState :=
  { baseState with
    tracks := [sampleTrack "a.mp3", sampleTrack "b.mp3", sampleTrack "c.mp3",
               sampleTrack "d.mp3", sampleTrack "e.mp3"]
    shuffledOrder := [0, 1, 2, 3, 4], shuffleEnabled := false
    currentTrackIndex := some 3 }

/-- Single-track catalog with shuffle on (the C5 failing input). -/
def stateOneShuffle : PlayerState :=
  { baseState with
    tracks := [sampleTrack "a.mp3"], shuffledOrder := [0]
    currentTrackIndex := some 0 }

/-- Six-track catalog with shuffle on, playing the first slot (for the
C6 witness). -/
def stateSix : PlayerState :=
  { baseState with
    tracks := [sampleTrack "a.mp3", sampleTrack "b.mp3", sampleTrack "c.mp3",
               sampleTrack "d.mp3", sampleTrack "e.mp3", sampleTrack "f.mp3"]
    shuffledOrder := [0, 1, 2, 3, 4, 5], currentTrackIndex := some 0 }

/-- Six-track catalog with shuffle still off, playing track 2 — the
state right before the user turns shuffle on (for the C6
counterexample). -/
def stateSixOff : PlayerState :=
  { baseState with
    tracks := [sampleTrack "a.mp3", sampleTrack "b.mp3", sampleTrack "c.mp3",
               sampleTrack "d.mp3", sampleTrack "e.mp3", sampleTrack "f.mp3"]
    shuffledOrder := [0, 1, 2, 3, 4, 5], shuffleEnabled := false
    currentTrackIndex := some 2 }

/-- A playlist already holding track 2 (for the C8 witness). -/
def samplePlaylist : Playlist := { id := "a", name := "Mix", trackIds := [2] }

/-- State whose active playlist is `samplePlaylist` (for the C8
witness). -/
def statePl : PlayerState :=
  { baseState with playlists := [("a", samplePlaylist)]
                   activePlaylistId := some "a" }

/-- A persisted blob whose stored active id matches no stored playlist
(the C9 counterexample input). -/
def blobMismatch : StorageBlob :=
  { playlists := some [("a", samplePlaylist)], activePlaylistId := some "zzz" }

/-- A persisted blob whose stored active id does key a stored playlist
(for the C9 witness). -/
def blobGood : StorageBlob :=
  { playlists := some [("a", samplePlaylist)], activePlaylistId := some "a" }

/-- The raw records of the spec's normalization scenario:
`[{title:"A", link:"http://x/a.mp3"}, {title:"B"}]`. -/
def rawScenario : List RawTrack :=
  [{ id := none, title := some "A", artist := none, cover := none
     album := none, url := none, link := some "http://x/a.mp3" },
   { id := none, title := some "B", artist := none, cover := none
     album := none, url := none, link := none }]

/-! ## Fisher–Yates permutation lemmas -/

/-- Writing `a` over the element `y` at position `m` and re-consing `y`
is a permutation of consing `a` instead. -/
theorem cons_set_perm (a : Nat) :
    ∀ (t : List Nat) (m : Nat) (y : Nat), t.get? m = some y →
      (y :: t.set m a).Perm (a :: t)
  | [], m, _, h => by simp at h
  | b :: t, 0, y, h => by
    have hb : y = b := by simpa using h.symm
    subst hb
    exact List.Perm.swap a y t
  | b :: t, m + 1, y, h => by
    have h' : t.get? m = some y := by simpa using h
    have ih := cons_set_perm a t m y h'
    show (y :: b :: t.set m a).Perm (a :: b :: t)
    exact (List.Perm.swap b y _).trans ((ih.cons b).trans (List.Perm.swap a b t))

/-- Exchanging the elements at two positions permutes the list. -/
theorem set_set_swap_perm :
    ∀ (l : List Nat) (i j x y : Nat), l.get? i = some x → l.get? j = some y →
      ((l.set i y).set j x).Perm l
  | [], i, _, _, _, hi, _ => by simp at hi
  | a :: t, 0, 0, x, y, hi, hj => by
    have hx : x = a := by simpa using hi.symm
    have hy : y = a := by simpa using hj.symm
    subst hx; subst hy
    exact List.Perm.refl _
  | a :: t, 0, j + 1, x, y, hi, hj => by
    have hx : x = a := by simpa using hi.symm
    have hj' : t.get? j = some y := by simpa using hj
    subst hx
    show (y :: t.set j x).Perm (x :: t)
    exact cons_set_perm x t j y hj'
  | a :: t, i + 1, 0, x, y, hi, hj => by
    have hy : y = a := by simpa using hj.symm
    have hi' : t.get? i = some x := by simpa using hi
    subst hy
    show (x :: t.set i y).Perm (y :: t)
    exact cons_set_perm y t i x hi'
  | a :: t, i + 1, j + 1, x, y, hi, hj => by
    have hi' : t.get? i = some x := by simpa using hi
    have hj' : t.get? j = some y := by simpa using hj
    have ih := set_set_swap_perm t i j x y hi' hj'
    show (a :: (t.set i y).set j x).Perm (a :: t)
    exact ih.cons a

/-- `listSwap` permutes its argument. -/
theorem listSwap_perm (l : List Nat) (i j : Nat) : (listSwap l i j).Perm l := by
  unfold listSwap
  cases hi : l.get? i with
  | none => exact List.Perm.refl l
  | some x =>
    cases hj : l.get? j with
    | none => exact List.Perm.refl l
    | some y => exact set_set_swap_perm l i j x y hi hj

/-- Every run of the Fisher–Yates loop permutes its argument. -/
theorem fyAux_perm (rand : Nat → Nat) : ∀ (i : Nat) (a : List Nat),
    (fyAux rand i a).Perm a
  | 0, a => List.Perm.refl a
  | i + 1, a =>
    (fyAux_perm rand i _).trans (listSwap_perm a (i + 1) (rand (i + 1) % (i + 2)))

/-- `shuffleArray` returns a permutation of its input, whatever the
random draws were. -/
theorem shuffleArray_perm (rand : Nat → Nat) (arr : List Nat) :
    (shuffleArray rand arr).Perm arr :=
  fyAux_perm rand (arr.length - 1) arr

/-! ## Claim C1 -/

/-- C1: for every non-empty catalog of `n` tracks and any random draws,
`buildInitialShuffleOrder` sets the playback order to a permutation of
`[0, n)` — length `n`, no repeats, every catalog index appearing exactly
once — and resets `orderIndex` to 0. -/
theorem buildOrder_sets_permutation (rand : Nat → Nat) (s : PlayerState)
    (h : s.tracks.length ≠ 0) :
    ((buildInitialShuffleOrder rand s).shuffledOrder).Perm
        (List.range s.tracks.length) ∧
    (buildInitialShuffleOrder rand s).shuffledOrder.length = s.tracks.length ∧
    (buildInitialShuffleOrder rand s).shuffledOrder.Nodup ∧
    (∀ i, i < s.tracks.length →
      (buildInitialShuffleOrder rand s).shuffledOrder.count i = 1) ∧
    (buildInitialShuffleOrder rand s).orderIndex = 0 := by
  have hp : ((buildInitialShuffleOrder rand s).shuffledOrder).Perm
      (List.range s.tracks.length) := shuffleArray_perm rand _
  refine ⟨hp, ?_, ?_, ?_, rfl⟩
  · simpa using hp.length_eq
  · exact hp.nodup_iff.mpr (List.nodup_range _)
  · intro i hi
    rw [hp.count_eq]
    exact List.count_eq_one_of_mem (List.nodup_range _) (List.mem_range.mpr hi)

/-- C1 witness: the three-track catalog under the all-zero oracle. -/
theorem buildOrder_sets_permutation_witness :
    stateThree.tracks.length ≠ 0 ∧
    (((buildInitialShuffleOrder rand0 stateThree).shuffledOrder).Perm
        (List.range stateThree.tracks.length) ∧
    (buildInitialShuffleOrder rand0 stateThree).shuffledOrder.length =
      stateThree.tracks.length ∧
    (buildInitialShuffleOrder rand0 stateThree).shuffledOrder.Nodup ∧
    (∀ i, i < stateThree.tracks.length →
      (buildInitialShuffleOrder rand0 stateThree).shuffledOrder.count i = 1) ∧
    (buildInitialShuffleOrder rand0 stateThree).orderIndex = 0) :=
  ⟨by decide, buildOrder_sets_permutation rand0 stateThree (by decide)⟩

/-! ## Claim C10 -/

/-- C10 counterexample: with `shuffleEnabled = false`, the two-track
catalog and the all-zero oracle, `buildInitialShuffleOrder` still runs
the Fisher–Yates swap (the function never consults `shuffleEnabled`),
yielding `[1, 0]` rather than the identity order `[0, 1]`. -/
theorem buildOrder_not_identity_when_disabled :
    stateTwoOff.shuffleEnabled = false ∧
    (buildInitialShuffleOrder rand0 stateTwoOff).shuffledOrder = [1, 0] ∧
    (buildInitialShuffleOrder rand0 stateTwoOff).shuffledOrder ≠
      List.range stateTwoOff.tracks.length := by decide

/-- C10 amended: `buildInitialShuffleOrder` regenerates the order as a
Fisher–Yates shuffle of all catalog indices regardless of
`shuffleEnabled` (which it neither reads nor changes), and resets the
cursor; it never special-cases `shuffleEnabled = false` to the identity
order. -/
theorem buildOrder_shuffles_regardless (rand : Nat → Nat) (s : PlayerState) :
    ((buildInitialShuffleOrder rand s).shuffledOrder).Perm
        (List.range s.tracks.length) ∧
    (buildInitialShuffleOrder rand s).shuffleEnabled = s.shuffleEnabled ∧
    (buildInitialShuffleOrder rand s).orderIndex = 0 :=
  ⟨shuffleArray_perm rand _, rfl, rfl⟩

/-! ## Claim C4 -/

/-- The normalization loop starting at original position `idx`: skip
count and catalog contents. -/
theorem normAux_spec (idx : Nat) (raw : List RawTrack) :
    (normAux idx raw).1 =
      ((List.enumFrom idx raw).filter
          (fun p => !(srcOf p.2 == ""))).map (fun p => normalizeOne p.1 p.2) ∧
    (normAux idx raw).2 = (raw.filter (fun t => srcOf t == "")).length ∧
    (normAux idx raw).1.length + (normAux idx raw).2 = raw.length ∧
    (∀ tr ∈ (normAux idx raw).1, tr.src ≠ "") := by
  induction raw generalizing idx with
  | nil => simp [normAux]
  | cons t ts ih =>
    rcases ih (idx + 1) with ⟨ih1, ih2, ih3, ih4⟩
    by_cases h : srcOf t = ""
    · have hb : (srcOf t == "") = true := by simp [h]
      refine ⟨?_, ?_, ?_, ?_⟩
      · simp [normAux, h, hb, ih1, List.enumFrom, List.filter]
      · simp [normAux, h, hb, ih2, List.filter]
      · simpa [normAux, h] using by omega
      · simpa [normAux, h] using ih4
    · have hb : (srcOf t == "") = false := by simp [h]
      refine ⟨?_, ?_, ?_, ?_⟩
      · simp [normAux, h, hb, ih1, List.enumFrom, List.filter]
      · simp [normAux, h, hb, ih2, List.filter]
      · simpa [normAux, h] using by omega
      · intro tr htr
        rcases (by simpa [normAux, h] using htr :
            tr = normalizeOne idx t ∨ tr ∈ (normAux (idx + 1) ts).1) with h1 | h1
        · subst h1
          simpa [normalizeOne] using h
        · exact ih4 tr h1

/-- C4: normalization computes each record's source by `url`-then-`link`
with trimming; records with an empty source are skipped (counted, not
failing the batch, not entering the catalog) and the rest enter the
catalog in order, normalized at their original position; on the spec's
scenario `[{title:"A", link:"http://x/a.mp3"}, {title:"B"}]` this yields
one catalog entry and one skip. -/
theorem fetchNormalize_skips_empty_source :
    (∀ raw : List RawTrack,
      (fetchNormalize raw).1 =
        ((List.enumFrom 0 raw).filter
            (fun p => !(srcOf p.2 == ""))).map (fun p => normalizeOne p.1 p.2) ∧
      (fetchNormalize raw).2 = (raw.filter (fun t => srcOf t == "")).length ∧
      (fetchNormalize raw).1.length + (fetchNormalize raw).2 = raw.length ∧
      (∀ tr ∈ (fetchNormalize raw).1, tr.src ≠ "")) ∧
    (fetchNormalize rawScenario).1.length = 1 ∧
    (fetchNormalize rawScenario).2 = 1 := by
  exact ⟨fun raw => normAux_spec 0 raw, by decide, by decide⟩

/-! ## Claim C2 -/

/-- For a valid in-range index on a catalog whose tracks all carry a
usable source, `loadTrackByIndex` just moves `currentTrackIndex`. -/
theorem loadTrackByIndex_sets (s : PlayerState) (k : Nat) (auto : Bool)
    (hk : k < s.tracks.length)
    (hsrc : ∀ t ∈ s.tracks, trackSrc t ≠ "" ∧ trackSrc t ≠ "undefined") :
    loadTrackByIndex s (k : Int) auto = { s with currentTrackIndex := some k } := by
  unfold loadTrackByIndex
  rw [if_neg (by push_cast; omega)]
  have hget : s.tracks.get? ((k : Int).toNat) = some (s.tracks.get ⟨k, hk⟩) := by
    have h0 : (k : Int).toNat = k := rfl
    rw [h0]
    exact List.get?_eq_get hk
  rw [hget]
  have hs := hsrc _ (s.tracks.get_mem k hk)
  show (if trackSrc (s.tracks.get ⟨k, hk⟩) = "" ∨
        trackSrc (s.tracks.get ⟨k, hk⟩) = "undefined" then s
      else { s with currentTrackIndex := some k }) =
    { s with currentTrackIndex := some k }
  rw [if_neg (by simpa using hs : ¬(trackSrc (s.tracks.get ⟨k, hk⟩) = "" ∨
    trackSrc (s.tracks.get ⟨k, hk⟩) = "undefined"))]

/-- The shuffle-off branch of `skipTrack` as a single equation. -/
theorem skipTrack_off_eq (rand : Nat → Nat) (s : PlayerState) (d : Int)
    (hsh : s.shuffleEnabled = false) (hne : s.tracks.length ≠ 0) :
    skipTrack rand s d =
      loadTrackByIndex s
        (if (s.tracks.length : Int) ≤
            (if ((s.currentTrackIndex.getD 0 : Nat) : Int) + d < 0 then
              (s.tracks.length : Int) - 1
             else ((s.currentTrackIndex.getD 0 : Nat) : Int) + d) then 0
         else
            (if ((s.currentTrackIndex.getD 0 : Nat) : Int) + d < 0 then
              (s.tracks.length : Int) - 1
             else ((s.currentTrackIndex.getD 0 : Nat) : Int) + d)) true := by
  unfold skipTrack
  rw [if_neg hne, if_neg (by simp [hsh])]

/-- `loadTrackByIndex` at an integer expression known to equal an
in-range catalog index `m` lands `currentTrackIndex` on `m`. -/
theorem loadTrack_current (s : PlayerState) (e : Int) (m : Nat) (auto : Bool)
    (he : e = (m : Int)) (hm : m < s.tracks.length)
    (hsrc : ∀ t ∈ s.tracks, trackSrc t ≠ "" ∧ trackSrc t ≠ "undefined") :
    (loadTrackByIndex s e auto).currentTrackIndex = some m := by
  rw [he, loadTrackByIndex_sets s m auto hm hsrc]

/-- C2: with shuffle disabled, a non-empty catalog of usable tracks and
`currentTrackIndex = c`, `skipTrack` is a modulo-`n` walk:
`skipTrack(+1)` goes to `(c + 1) % n` (so from `n - 1` to `0`) and
`skipTrack(-1)` goes to `(c + n - 1) % n` (so from `0` to `n - 1`). -/
theorem skipTrack_mod_walk (rand : Nat → Nat) (s : PlayerState) (c : Nat)
    (hsh : s.shuffleEnabled = false)
    (hc : s.currentTrackIndex = some c)
    (hlt : c < s.tracks.length)
    (hsrc : ∀ t ∈ s.tracks, trackSrc t ≠ "" ∧ trackSrc t ≠ "undefined") :
    (skipTrack rand s 1).currentTrackIndex =
      some ((c + 1) % s.tracks.length) ∧
    (skipTrack rand s (-1)).currentTrackIndex =
      some ((c + s.tracks.length - 1) % s.tracks.length) := by
  have hn : s.tracks.length ≠ 0 := by omega
  constructor
  · rw [skipTrack_off_eq rand s 1 hsh hn, hc]
    simp only [Option.getD_some]
    split_ifs with h1 h2 h2
    · exact absurd h1 (by omega)
    · exact absurd h1 (by omega)
    · have hmod : (c + 1) % s.tracks.length = 0 := by
        have : c + 1 = s.tracks.length := by omega
        rw [this, Nat.mod_self]
      rw [hmod]
      exact loadTrack_current s 0 0 true rfl (by omega) hsrc
    · have hmod : (c + 1) % s.tracks.length = c + 1 :=
        Nat.mod_eq_of_lt (by omega)
      rw [hmod]
      refine loadTrack_current s _ _ true ?_ ?_ hsrc
      · omega
      · omega
  · rw [skipTrack_off_eq rand s (-1) hsh hn, hc]
    simp only [Option.getD_some]
    split_ifs with h1 h2 h2
    · exact absurd h2 (by omega)
    · have hc0 : c = 0 := by omega
      have hmod : (c + s.tracks.length - 1) % s.tracks.length =
          s.tracks.length - 1 := by
        have h4 : c + s.tracks.length - 1 = s.tracks.length - 1 := by omega
        rw [h4]
        exact Nat.mod_eq_of_lt (by omega)
      rw [hmod]
      refine loadTrack_current s _ _ true ?_ ?_ hsrc
      · omega
      · omega
    · exact absurd h2 (by omega)
    · have hmod : (c + s.tracks.length - 1) % s.tracks.length = c - 1 := by
        have h3 : c + s.tracks.length - 1 = (c - 1) + 1 * s.tracks.length := by omega
        rw [h3, Nat.add_mul_mod_self_right]
        exact Nat.mod_eq_of_lt (by omega)
      rw [hmod]
      refine loadTrack_current s _ _ true ?_ ?_ hsrc
      · omega
      · omega

/-- C2 witness: the spec's five-track scenario — shuffle off,
`currentTrackIndex = 3`; one forward skip lands on 4, a second forward
skip wraps to 0 (and backward from 3 lands on 2). -/
theorem skipTrack_mod_walk_witness :
    (skipTrack rand0 stateFive 1).currentTrackIndex = some 4 ∧
    (skipTrack rand0 (skipTrack rand0 stateFive 1) 1).currentTrackIndex = some 0 ∧
    (skipTrack rand0 stateFive (-1)).currentTrackIndex = some 2 := by
  have h1 := skipTrack_mod_walk rand0 stateFive 3 rfl rfl (by decide) (by decide)
  have hstep : skipTrack rand0 stateFive 1 =
      { stateFive with currentTrackIndex := some 4 } := by decide
  have h2 := skipTrack_mod_walk rand0
    { stateFive with currentTrackIndex := some 4 } 4 rfl rfl (by decide) (by decide)
  refine ⟨?_, ?_, ?_⟩
  · simpa using h1.1
  · rw [hstep]; simpa using h2.1
  · simpa using h1.2

/-! ## Claim C3 -/

/-- C3 counterexample: on the empty catalog, `toggleShuffle` is not a
no-op — it flips `shuffleEnabled` (here from `true` to `false`). -/
theorem emptyCatalog_toggleShuffle_not_noop :
    baseState.tracks = [] ∧
    toggleShuffle rand0 baseState ≠ baseState ∧
    (toggleShuffle rand0 baseState).shuffleEnabled = false := by decide

/-- C3 amended: on an empty catalog, `skipTrack` and
`playTrackFromIndex` leave the state unchanged and raise no error;
`toggleShuffle` also raises no error and leaves every field unchanged
except that it flips `shuffleEnabled` and, when turning shuffle on,
rebuilds the (empty) order and resets `orderIndex` to 0. -/
theorem emptyCatalog_ops (rand : Nat → Nat) (s : PlayerState)
    (h : s.tracks = []) :
    (∀ d : Int, skipTrack rand s d = s) ∧
    (∀ i : Nat, playTrackFromIndex rand s i = s) ∧
    ((toggleShuffle rand s).shuffleEnabled = !s.shuffleEnabled ∧
     (toggleShuffle rand s).tracks = s.tracks ∧
     (toggleShuffle rand s).currentTrackIndex = s.currentTrackIndex ∧
     (toggleShuffle rand s).repeatMode = s.repeatMode ∧
     (toggleShuffle rand s).isPlaying = s.isPlaying ∧
     (toggleShuffle rand s).playlists = s.playlists ∧
     (toggleShuffle rand s).activePlaylistId = s.activePlaylistId ∧
     (s.shuffleEnabled = false →
        (toggleShuffle rand s).shuffledOrder = [] ∧
        (toggleShuffle rand s).orderIndex = 0) ∧
     (s.shuffleEnabled = true →
        (toggleShuffle rand s).shuffledOrder = s.shuffledOrder ∧
        (toggleShuffle rand s).orderIndex = s.orderIndex)) := by
  refine ⟨fun d => by simp [skipTrack, h], fun i => by simp [playTrackFromIndex, h], ?_⟩
  cases hsh : s.shuffleEnabled <;>
    simp [toggleShuffle, hsh, buildInitialShuffleOrder, h, shuffleArray, fyAux]

/-- C3 witness: the startup state (empty catalog, shuffle on). -/
theorem emptyCatalog_ops_witness :
    baseState.tracks = [] ∧
    skipTrack rand0 baseState 1 = baseState ∧
    playTrackFromIndex rand0 baseState 0 = baseState ∧
    (toggleShuffle rand0 baseState).shuffleEnabled = !baseState.shuffleEnabled :=
  ⟨rfl, (emptyCatalog_ops rand0 baseState rfl).1 1,
   (emptyCatalog_ops rand0 baseState rfl).2.1 0,
   (emptyCatalog_ops rand0 baseState rfl).2.2.1⟩

/-! ## Claim C5 -/

/-- Once every element of `order` is already in `list` while `list` is
still shorter than `MAX_NEXT`, the shuffle up-next loop spins forever:
no amount of fuel makes it return. -/
theorem upNextShuffle_stuck (order : List Nat) (list : List Nat)
    (hsub : ∀ x ∈ order, x ∈ list) (hshort : list.length < MAX_NEXT)
    (hne : 0 < order.length) :
    ∀ fuel start, upNextShuffle order fuel start list = none := by
  intro fuel
  induction fuel with
  | zero => intro start; rfl
  | succ fuel ih =>
    intro start
    have hidx : order.getD (start % order.length) 0 ∈ order := by
      rw [List.getD_eq_getElem order 0 (Nat.mod_lt _ hne)]
      exact List.getElem_mem _
    have hmem : list.contains (order.getD (start % order.length) 0) = true := by
      simpa using hsub _ hidx
    show (if list.length < MAX_NEXT ∧ 0 < order.length then _ else _) = none
    rw [if_pos ⟨hshort, hne⟩]
    simp only [hmem, if_true]
    exact ih (start + 1)

/-- C5 (code bug): with shuffle enabled and a one-track catalog, the
up-next loop of `renderUpNext` never terminates — it demands
`MAX_NEXT = 6` distinct entries but the order can supply only one, and
it has no exhaustion check.  For every fuel the loop is still
running. -/
theorem renderUpNext_diverges_small_catalog :
    ∀ fuel : Nat, renderUpNextList stateOneShuffle fuel = none := by
  intro fuel
  have h0 : renderUpNextList stateOneShuffle fuel = upNextShuffle [0] fuel 1 [] := rfl
  rw [h0]
  cases fuel with
  | zero => rfl
  | succ fuel =>
    have hstep : upNextShuffle [0] (fuel + 1) 1 [] = upNextShuffle [0] fuel 2 [0] := rfl
    rw [hstep]
    exact upNextShuffle_stuck [0] [0] (by simp) (by decide) (by decide) fuel 2

/-! ## Claim C6 -/

/-- Soundness of the shuffle up-next loop: when it terminates with `l`,
the accumulator is a prefix of `l`, dedup is respected, every new entry
comes from `order`, and `l` has exactly `MAX_NEXT` entries. -/
theorem upNextShuffle_sound (order : List Nat) (hne : 0 < order.length) :
    ∀ fuel start list l, list.length ≤ MAX_NEXT →
      upNextShuffle order fuel start list = some l →
      list.IsPrefix l ∧ (list.Nodup → l.Nodup) ∧
      (∀ x ∈ l, x ∈ list ∨ x ∈ order) ∧ l.length = MAX_NEXT := by
  intro fuel
  induction fuel with
  | zero => intro start list l _ h; exact absurd h (by simp [upNextShuffle])
  | succ fuel ih =>
    intro start list l hlen h
    rw [show upNextShuffle order (fuel + 1) start list =
        (if list.length < MAX_NEXT ∧ 0 < order.length then
          upNextShuffle order fuel (start + 1)
            (if list.contains (order.getD (start % order.length) 0) then list
             else list ++ [order.getD (start % order.length) 0])
         else some list) from rfl] at h
    by_cases hcond : list.length < MAX_NEXT ∧ 0 < order.length
    · rw [if_pos hcond] at h
      have hidx : order.getD (start % order.length) 0 ∈ order := by
        rw [List.getD_eq_getElem order 0 (Nat.mod_lt _ hne)]
        exact List.getElem_mem _
      by_cases hmem : list.contains (order.getD (start % order.length) 0)
      · rw [if_pos hmem] at h
        exact ih (start + 1) list l hlen h
      · rw [if_neg hmem] at h
        have hlen1 : (list ++ [order.getD (start % order.length) 0]).length ≤ MAX_NEXT := by
          simp only [List.length_append, List.length_singleton]
          omega
        rcases ih (start + 1) _ l hlen1 h with ⟨hpre, hnd, hel, hL⟩
        refine ⟨List.IsPrefix.trans (List.prefix_append _ _) hpre, ?_, ?_, hL⟩
        · intro hnl
          refine hnd ?_
          have hnotmem : order.getD (start % order.length) 0 ∉ list := by
            intro hx
            exact hmem (by simpa using hx)
          simpa [List.concat_eq_append] using List.Nodup.concat hnotmem hnl
        · intro x hx
          rcases hel x hx with hx1 | hx1
          · rcases List.mem_append.mp hx1 with hx2 | hx2
            · exact Or.inl hx2
            · simp only [List.mem_singleton] at hx2
              subst hx2
              exact Or.inr hidx
          · exact Or.inr hx1
    · rw [if_neg hcond] at h
      have hl : l = list := by
        exact (Option.some.injEq _ _ ▸ h).symm
      subst hl
      have h6 : l.length = MAX_NEXT := by
        rcases Decidable.not_and_iff_or_not.mp hcond with h1 | h1
        · omega
        · exact absurd hne h1
      exact ⟨List.prefix_refl l, fun hnl => hnl, fun x hx => Or.inl hx, h6⟩

/-- Soundness of the linear up-next loop: when it terminates with `l`,
the accumulator is a prefix of `l` and dedup is respected. -/
theorem upNextLinear_sound (n bound : Nat) :
    ∀ fuel idx list l, upNextLinear n bound fuel idx list = some l →
      list.IsPrefix l ∧ (list.Nodup → l.Nodup) := by
  intro fuel
  induction fuel with
  | zero => intro idx list l h; exact absurd h (by simp [upNextLinear])
  | succ fuel ih =>
    intro idx list l h
    rw [show upNextLinear n bound (fuel + 1) idx list =
        (if list.length < bound then
          upNextLinear n bound fuel ((idx + 1) % n)
            (if list.contains idx then list else list ++ [idx])
         else some list) from rfl] at h
    by_cases hcond : list.length < bound
    · rw [if_pos hcond] at h
      by_cases hmem : list.contains idx
      · rw [if_pos hmem] at h
        exact ih _ list l h
      · rw [if_neg hmem] at h
        rcases ih _ _ l h with ⟨hpre, hnd⟩
        refine ⟨List.IsPrefix.trans (List.prefix_append _ _) hpre, ?_⟩
        intro hnl
        refine hnd ?_
        have hnotmem : idx ∉ list := by
          intro hx
          exact hmem (by simpa using hx)
        simpa [List.concat_eq_append] using List.Nodup.concat hnotmem hnl
    · rw [if_neg hcond] at h
      have hl : l = list := (Option.some.injEq _ _ ▸ h).symm
      subst hl
      exact ⟨List.prefix_refl l, fun hnl => hnl⟩

/-- C6 counterexample: the preview can start with the current track.
From the reachable state "six usable tracks, shuffle off, playing
track 2", `toggleShuffle` rebuilds the order (here, all-zero draws give
`[1, 2, 3, 4, 5, 0]`) and resets the cursor to 0 without re-syncing
`currentTrackIndex`, then calls `renderUpNext`: the preview starts at
`order[1] = 2`, which is exactly the current track. -/
theorem renderUpNext_current_head_counterexample :
    (toggleShuffle rand0 stateSixOff).currentTrackIndex = some 2 ∧
    (toggleShuffle rand0 stateSixOff).tracks.length ≠ 0 ∧
    renderUpNextList (toggleShuffle rand0 stateSixOff) 20 =
      some [2, 3, 4, 5, 0, 1] ∧
    ([2, 3, 4, 5, 0, 1] : List Nat).head? = some 2 := by decide

/-- C6 amended: on a non-empty catalog, in any state where the order
has no duplicates and the cursor and current index are in range,
whenever the up-next computation of `renderUpNext` returns a list, that
list contains no catalog index twice and the computation leaves the
whole state — in particular `orderIndex` and `currentTrackIndex` —
unchanged; and the list does not start with the current track
**provided** the cursor is synced to it (shuffle on:
`currentIndex = order[orderIndex]`, as after `playIndex` or
`skipTrack`).  The sync proviso is necessary: right after
`toggleShuffle` rebuilds the order and resets the cursor without
touching `currentTrackIndex`, the preview can start with the current
track (see the counterexample). -/
theorem renderUpNext_head_nodup (s : PlayerState) (fuel : Nat) (l : List Nat)
    (hne : s.tracks.length ≠ 0)
    (hnodup : s.shuffledOrder.Nodup)
    (hcur : ∀ c, s.currentTrackIndex = some c → c < s.tracks.length)
    (hoi : s.shuffledOrder ≠ [] → s.orderIndex.toNat < s.shuffledOrder.length)
    (hsync : ∀ c, s.currentTrackIndex = some c → s.shuffledOrder ≠ [] →
      s.shuffledOrder.getD s.orderIndex.toNat 0 = c)
    (hres : renderUpNextList s fuel = some l) :
    (∀ c, s.currentTrackIndex = some c → l.head? ≠ some c) ∧ l.Nodup ∧
    renderUpNext s fuel = (some l, s) := by
  have hstate : renderUpNext s fuel = (some l, s) := by
    show (renderUpNextList s fuel, s) = (some l, s)
    rw [hres]
  rw [renderUpNextList, if_neg hne] at hres
  by_cases hbr : s.shuffleEnabled ∧ s.shuffledOrder.length ≠ 0
  · rw [if_pos hbr] at hres
    have hne2 : s.shuffledOrder ≠ [] := by
      intro h0
      exact hbr.2 (by simp [h0])
    have hlt : s.orderIndex.toNat < s.shuffledOrder.length := hoi hne2
    have hpos : 0 < s.shuffledOrder.length := by omega
    cases fuel with
    | zero => exact absurd hres (by simp [upNextShuffle])
    | succ fuel =>
      set oi := s.orderIndex.toNat with hoi0
      set idx0 := s.shuffledOrder.getD ((oi + 1) % s.shuffledOrder.length) 0 with hidx0
      have hstep : upNextShuffle s.shuffledOrder (fuel + 1) (oi + 1) [] =
          upNextShuffle s.shuffledOrder fuel (oi + 2) [idx0] := by
        show (if ([] : List Nat).length < MAX_NEXT ∧ 0 < s.shuffledOrder.length
            then _ else _) = _
        rw [if_pos ⟨by decide, hpos⟩]
        rfl
      rw [hstep] at hres
      rcases upNextShuffle_sound s.shuffledOrder hpos fuel (oi + 2) [idx0] l
        (by simp [MAX_NEXT]) hres with ⟨hpre, hnd, hel, hL⟩
      have hhead : l.head? = some idx0 := by
        rcases hpre with ⟨tail, htail⟩
        rw [← htail]
        rfl
      have hM : MAX_NEXT = 6 := rfl
      have hlen6 : MAX_NEXT ≤ s.shuffledOrder.length := by
        have hnl : l.Nodup := hnd (by simp)
        have hsubset : l ⊆ s.shuffledOrder := by
          intro x hx
          rcases hel x hx with hx1 | hx1
          · simp only [List.mem_singleton] at hx1
            subst hx1
            rw [hidx0, List.getD_eq_getElem _ 0 (Nat.mod_lt _ hpos)]
            exact List.getElem_mem _
          · exact hx1
        have := (hnl.subperm hsubset).length_le
        omega
      refine ⟨?_, hnd (by simp), hstate⟩
      intro c hc
      rw [hhead]
      have hgetc : s.shuffledOrder.getD oi 0 = c := hsync c hc hne2
      have hdiff : (oi + 1) % s.shuffledOrder.length ≠ oi := by
        by_cases hwrap : oi + 1 < s.shuffledOrder.length
        · rw [Nat.mod_eq_of_lt hwrap]
          omega
        · have h2 : oi + 1 = s.shuffledOrder.length := by omega
          rw [h2, Nat.mod_self]
          omega
      intro heq
      simp only [Option.some.injEq] at heq
      apply hdiff
      have h1 : s.shuffledOrder.get ⟨(oi + 1) % s.shuffledOrder.length,
            Nat.mod_lt _ hpos⟩ = s.shuffledOrder.get ⟨oi, hlt⟩ := by
        rw [← List.getD_eq_get s.shuffledOrder 0 (Nat.mod_lt _ hpos),
          ← List.getD_eq_get s.shuffledOrder 0 hlt, ← hidx0, heq, hgetc]
      have h2 := (List.Nodup.get_inj_iff hnodup).mp h1
      simpa using h2
  · rw [if_neg hbr] at hres
    cases hc0 : s.currentTrackIndex with
    | none =>
      refine ⟨fun c hc => ?_, ?_, hstate⟩
      · exact absurd hc (by simp)
      · exact (upNextLinear_sound _ _ fuel _ [] l hres).2 (by simp)
    | some c =>
      have hcl : c < s.tracks.length := hcur c hc0
      have hst : upNextStart s = (c + 1) % s.tracks.length := by
        rw [upNextStart, hc0]
      refine ⟨?_, (upNextLinear_sound _ _ fuel _ [] l hres).2 (by simp), hstate⟩
      intro c' hc'
      have hcc : c' = c := by
        simpa using hc'.symm
      subst hcc
      rw [hst] at hres
      by_cases hbound : 0 < min MAX_NEXT (s.tracks.length - 1)
      · cases fuel with
        | zero => exact absurd hres (by simp [upNextLinear])
        | succ fuel =>
          have hstep : upNextLinear s.tracks.length
              (min MAX_NEXT (s.tracks.length - 1)) (fuel + 1)
              ((c' + 1) % s.tracks.length) [] =
              upNextLinear s.tracks.length (min MAX_NEXT (s.tracks.length - 1))
                fuel (((c' + 1) % s.tracks.length + 1) % s.tracks.length)
                [(c' + 1) % s.tracks.length] := by
            show (if ([] : List Nat).length < min MAX_NEXT (s.tracks.length - 1)
                then _ else _) = _
            rw [if_pos (by simpa using hbound)]
            rfl
          rw [hstep] at hres
          rcases upNextLinear_sound _ _ fuel _ _ l hres with ⟨hpre, _⟩
          have hhead : l.head? = some ((c' + 1) % s.tracks.length) := by
            rcases hpre with ⟨tail, htail⟩
            rw [← htail]
            rfl
          rw [hhead]
          intro heq
          simp only [Option.some.injEq] at heq
          have hM : MAX_NEXT = 6 := rfl
          have hn2 : 2 ≤ s.tracks.length := by omega
          by_cases hwrap : c' + 1 < s.tracks.length
          · rw [Nat.mod_eq_of_lt hwrap] at heq
            omega
          · have hceq : c' + 1 = s.tracks.length := by omega
            rw [hceq, Nat.mod_self] at heq
            omega
      · cases fuel with
        | zero => exact absurd hres (by simp [upNextLinear])
        | succ fuel =>
          have hend : upNextLinear s.tracks.length
              (min MAX_NEXT (s.tracks.length - 1)) (fuel + 1)
              ((c' + 1) % s.tracks.length) [] = some [] := by
            show (if ([] : List Nat).length < min MAX_NEXT (s.tracks.length - 1)
                then _ else _) = some []
            rw [if_neg (by omega)]
          rw [hend] at hres
          have hl0 : l = [] := by simpa using hres.symm
          subst hl0
          simp

/-- C6 witness: six tracks, identity order, playing slot 0; with ample
fuel the preview is `[1, 2, 3, 4, 5, 0]` — it does not start with the
current track, has no duplicates, and the state is untouched. -/
theorem renderUpNext_head_nodup_witness :
    renderUpNextList stateSix 20 = some [1, 2, 3, 4, 5, 0] ∧
    ((∀ c, stateSix.currentTrackIndex = some c →
        ([1, 2, 3, 4, 5, 0] : List Nat).head? ≠ some c) ∧
     ([1, 2, 3, 4, 5, 0] : List Nat).Nodup ∧
     renderUpNext stateSix 20 = (some [1, 2, 3, 4, 5, 0], stateSix)) :=
  ⟨by decide,
   renderUpNext_head_nodup stateSix 20 [1, 2, 3, 4, 5, 0] (by decide) (by decide)
     (by decide) (by decide) (by decide) (by decide)⟩

/-! ## Association-list lemmas for the playlist object -/

/-- Replacing the entries under key `k` does not change any other key's
entry. -/
theorem objLookup_map_other (m : List (String × Playlist)) (k a : String)
    (v : Playlist) (hne : a ≠ k) :
    objLookup (m.map (fun p => if p.1 == k then (k, v) else p)) a =
      objLookup m a := by
  induction m with
  | nil => rfl
  | cons p m ih =>
    by_cases hp : p.1 == k
    · have hp1 : p.1 = k := by simpa using hp
      have hka : ((k, v).1 == a) = false := by
        simp only [beq_eq_false_iff_ne, ne_eq]
        exact fun hx => hne hx.symm
      have hpa : (p.1 == a) = false := by
        simp only [beq_eq_false_iff_ne, ne_eq, hp1]
        exact fun hx => hne hx.symm
      simp only [List.map_cons, if_pos hp, objLookup, List.find?, hka, hpa]
      exact ih
    · simp only [List.map_cons, if_neg hp, objLookup, List.find?]
      by_cases hpa : p.1 == a
      · simp [hpa]
      · simp only [Bool.not_eq_true] at hpa
        simp only [hpa]
        exact ih

/-- Appending a fresh entry under key `k` does not change any other
key's entry. -/
theorem objLookup_append_other (m : List (String × Playlist)) (k a : String)
    (v : Playlist) (hne : a ≠ k) :
    objLookup (m ++ [(k, v)]) a = objLookup m a := by
  induction m with
  | nil =>
    have hka : ((k, v).1 == a) = false := by
      simp only [beq_eq_false_iff_ne, ne_eq]
      exact fun hx => hne hx.symm
    simp [objLookup, List.find?, hka]
  | cons p m ih =>
    simp only [List.cons_append, objLookup, List.find?]
    by_cases hpa : p.1 == a
    · simp [hpa]
    · simp only [Bool.not_eq_true] at hpa
      simp only [hpa]
      exact ih

/-- Writing key `k` leaves every other key's entry unchanged. -/
theorem objLookup_objSet_other (m : List (String × Playlist)) (k a : String)
    (v : Playlist) (hne : a ≠ k) :
    objLookup (objSet m k v) a = objLookup m a := by
  rw [objSet]
  by_cases h : m.any (fun p => p.1 == k)
  · rw [if_pos h]
    exact objLookup_map_other m k a v hne
  · rw [if_neg h]
    exact objLookup_append_other m k a v hne

/-- Writing key `k` and then reading it back yields the new value. -/
theorem objLookup_objSet_self (m : List (String × Playlist)) (k : String)
    (v : Playlist) : objLookup (objSet m k v) k = some v := by
  rw [objSet]
  by_cases h : m.any (fun p => p.1 == k)
  · rw [if_pos h]
    induction m with
    | nil => simp at h
    | cons p m ih =>
      by_cases hp : p.1 == k
      · simp [objLookup, List.find?, hp]
      · have h2 : m.any (fun p => p.1 == k) := by
          rcases List.any_eq_true.mp h with ⟨q, hq, hq2⟩
          rcases List.mem_cons.mp hq with hq | hq
          · exact absurd (hq ▸ hq2) (by simpa using hp)
          · exact List.any_eq_true.mpr ⟨q, hq, hq2⟩
        simp only [Bool.not_eq_true] at hp
        simpa [objLookup, List.find?, List.map_cons, if_neg, hp] using ih h2
  · rw [if_neg h]
    induction m with
    | nil => simp [objLookup, List.find?]
    | cons p m ih =>
      have hp : (p.1 == k) = false := by
        by_cases hx : p.1 == k
        · exact absurd (by simp [List.any_cons, hx]) h
        · simpa using hx
      have h2 : ¬m.any (fun p => p.1 == k) := fun hk => h (by simp [List.any_cons, hk])
      simp only [List.cons_append, objLookup, List.find?, hp]
      simpa [objLookup] using ih h2

/-- Replacing the entries under key `k` keeps the key list intact. -/
theorem objKeys_map_write (m : List (String × Playlist)) (k : String)
    (v : Playlist) :
    objKeys (m.map (fun p => if p.1 == k then (k, v) else p)) = objKeys m := by
  induction m with
  | nil => rfl
  | cons p m ih =>
    by_cases hp : p.1 == k
    · have hp1 : p.1 = k := by simpa using hp
      simp only [List.map_cons, if_pos hp, objKeys, List.map_cons] at *
      rw [hp1]
      exact congrArg (k :: ·) ih
    · simp only [List.map_cons, if_neg hp, objKeys, List.map_cons] at *
      exact congrArg (p.1 :: ·) ih

/-- The keys after a write: the written key joins the key set, nothing
else changes. -/
theorem mem_objKeys_objSet (m : List (String × Playlist)) (k a : String)
    (v : Playlist) :
    a ∈ objKeys (objSet m k v) ↔ a = k ∨ a ∈ objKeys m := by
  rw [objSet]
  by_cases h : m.any (fun p => p.1 == k)
  · rw [if_pos h]
    rw [objKeys_map_write]
    constructor
    · exact Or.inr
    · intro hx
      rcases hx with hx | hx
      · subst hx
        rcases List.any_eq_true.mp h with ⟨q, hq, hq2⟩
        have : q.1 = a := by simpa using hq2
        rw [objKeys]
        exact List.mem_map.mpr ⟨q, hq, this⟩
      · exact hx
  · rw [if_neg h]
    rw [objKeys, List.map_append]
    simp only [List.mem_append, List.map_cons, List.map_nil, List.mem_singleton]
    rw [objKeys]
    tauto

/-- A present key always resolves to some playlist. -/
theorem objLookup_isSome_of_mem (m : List (String × Playlist)) (k : String)
    (h : k ∈ objKeys m) : ∃ v, objLookup m k = some v := by
  induction m with
  | nil => simp [objKeys] at h
  | cons p m ih =>
    by_cases hp : p.1 == k
    · exact ⟨p.2, by simp [objLookup, List.find?, hp]⟩
    · have hpk : p.1 ≠ k := by simpa using hp
      have h2 : k ∈ objKeys m := by
        simp only [objKeys, List.map_cons, List.mem_cons] at h
        rcases h with hx | hx
        · exact absurd hx.symm hpk
        · simpa [objKeys] using hx
      rcases ih h2 with ⟨v, hv⟩
      have hp2 : (p.1 == k) = false := by simpa using hp
      exact ⟨v, by simpa [objLookup, List.find?, hp2] using hv⟩

/-! ## Claim C7 -/

/-- C7 counterexample: corrupt storage is not treated like absent
storage, and nothing is persisted.  From the startup state, `load()` on
unparseable storage leaves the collection empty — no default
"Favorites" playlist, no active id — while `load()` on absent storage
does create the default; and the absent branch writes nothing to
storage, so the fresh default is not persisted "immediately" or at
all. -/
theorem load_corrupt_differs_from_absent :
    (loadPlaylistsFromStorage "f" (some none) baseState).1.playlists = [] ∧
    (loadPlaylistsFromStorage "f" (some none) baseState).1.activePlaylistId = none ∧
    (loadPlaylistsFromStorage "f" none baseState).1.playlists ≠ [] ∧
    (loadPlaylistsFromStorage "f" none baseState).2 = [] := by decide

/-- C7 amended: `load()` with absent storage initializes a single
default "Favorites" playlist under the freshly drawn id and sets it
active, but performs no storage write; `load()` with corrupt storage
only logs a warning, leaving the state exactly as it was (so a startup
state keeps its empty collection); neither branch raises an error. -/
theorem loadPlaylists_absent_and_corrupt (freshId : String) (s : PlayerState)
    (hempty : s.playlists = []) :
    (loadPlaylistsFromStorage freshId none s).1 =
      { s with
        playlists := [(freshId, { id := freshId, name := "Favorites", trackIds := [] })]
        activePlaylistId := some freshId } ∧
    (loadPlaylistsFromStorage freshId none s).2 = [] ∧
    loadPlaylistsFromStorage freshId (some none) s = (s, []) := by
  refine ⟨?_, rfl, rfl⟩
  simp [loadPlaylistsFromStorage, objSet, hempty]

/-- C7 witness: the startup state with fresh id `"f"`. -/
theorem loadPlaylists_absent_and_corrupt_witness :
    baseState.playlists = [] ∧
    ((loadPlaylistsFromStorage "f" none baseState).1 =
      { baseState with
        playlists := [("f", { id := "f", name := "Favorites", trackIds := [] })]
        activePlaylistId := some "f" } ∧
    (loadPlaylistsFromStorage "f" none baseState).2 = [] ∧
    loadPlaylistsFromStorage "f" (some none) baseState = (baseState, [])) :=
  ⟨rfl, loadPlaylists_absent_and_corrupt "f" baseState rfl⟩

/-! ## Claim C8 -/

/-- Running `handleAddTrackToPlaylist` when the resolved target id does
key a playlist: the push phase runs and the snapshot is persisted. -/
theorem handleAdd_eq (favId : String) (s : PlayerState) (k : Nat) (pl : Playlist)
    (hpl : objLookup (resolveAddTarget favId s).1.playlists
        (resolveAddTarget favId s).2 = some pl) :
    handleAddTrackToPlaylist favId s k =
      some (addResult favId s k pl, [savePayload (addResult favId s k pl)]) := by
  rw [handleAddTrackToPlaylist, hpl]

/-- C8: with a valid (truthy) active playlist id `tid` resolving to
playlist `pl`, `handleAddTrackToPlaylist` has set semantics on
`trackIds`: a present `k` leaves `trackIds` unchanged (idempotence), an
absent `k` is appended at the end; a duplicate-free `trackIds` stays
duplicate-free, `k` is present afterwards, every other playlist is
untouched, the active id is untouched, and the mutated snapshot is the
one persisted. -/
theorem addTrack_set_semantics (favId tid : String) (s : PlayerState)
    (pl : Playlist) (k : Nat)
    (hact : s.activePlaylistId = some tid) (htid : tid ≠ "")
    (hpl : objLookup s.playlists tid = some pl) :
    ∃ s2 pl2, handleAddTrackToPlaylist favId s k =
        some (s2, [(s2.playlists, s2.activePlaylistId)]) ∧
      s2.activePlaylistId = s.activePlaylistId ∧
      objLookup s2.playlists tid = some pl2 ∧
      (pl.trackIds.contains k = true → pl2.trackIds = pl.trackIds) ∧
      (pl.trackIds.contains k = false → pl2.trackIds = pl.trackIds ++ [k]) ∧
      (pl.trackIds.Nodup → pl2.trackIds.Nodup) ∧
      pl2.trackIds.contains k = true ∧
      (∀ a, a ≠ tid → objLookup s2.playlists a = objLookup s.playlists a) := by
  have htr : truthyStr s.activePlaylistId = some tid := by
    rw [hact, truthyStr, if_neg htid]
  have hres1 : resolveAddTarget favId s = (s, tid) := by
    rw [resolveAddTarget, htr]
  have hpl' : objLookup (resolveAddTarget favId s).1.playlists
      (resolveAddTarget favId s).2 = some pl := by
    rw [hres1]
    exact hpl
  have heq := handleAdd_eq favId s k pl hpl'
  obtain ⟨pl2, hpl2⟩ : ∃ pl2 : Playlist,
      pl2 = (if pl.trackIds.contains k then pl
             else { pl with trackIds := pl.trackIds ++ [k] }) := ⟨_, rfl⟩
  have hact2 : (addResult favId s k pl).activePlaylistId = s.activePlaylistId := by
    rw [addResult, hres1]
  have hpls : (addResult favId s k pl).playlists = objSet s.playlists tid pl2 := by
    rw [addResult, hres1, ← hpl2]
  refine ⟨addResult favId s k pl, pl2, heq, hact2, ?_, ?_, ?_, ?_, ?_, ?_⟩
  · rw [hpls]
    exact objLookup_objSet_self _ _ _
  · intro hk
    rw [hpl2, if_pos hk]
  · intro hk
    rw [hpl2, if_neg (by rw [hk]; exact Bool.false_ne_true)]
  · intro hnd
    by_cases hk : pl.trackIds.contains k
    · rw [hpl2, if_pos hk]
      exact hnd
    · rw [hpl2, if_neg hk]
      have hnotmem : k ∉ pl.trackIds := by
        intro hx
        exact hk (by simpa using hx)
      simpa [List.concat_eq_append] using List.Nodup.concat hnotmem hnd
  · by_cases hk : pl.trackIds.contains k
    · rw [hpl2, if_pos hk]
      exact hk
    · rw [hpl2, if_neg hk]
      simp
  · intro a ha
    rw [hpls]
    exact objLookup_objSet_other _ _ _ _ ha

/-- C8 witness: playlist `"a"` holds track 2; adding 2 again leaves
`trackIds` unchanged, adding 3 appends it. -/
theorem addTrack_set_semantics_witness :
    (∃ s2 pl2, handleAddTrackToPlaylist "fav" statePl 2 =
        some (s2, [(s2.playlists, s2.activePlaylistId)]) ∧
      s2.activePlaylistId = statePl.activePlaylistId ∧
      objLookup s2.playlists "a" = some pl2 ∧
      (samplePlaylist.trackIds.contains 2 = true →
        pl2.trackIds = samplePlaylist.trackIds) ∧
      (samplePlaylist.trackIds.contains 2 = false →
        pl2.trackIds = samplePlaylist.trackIds ++ [2]) ∧
      (samplePlaylist.trackIds.Nodup → pl2.trackIds.Nodup) ∧
      pl2.trackIds.contains 2 = true ∧
      (∀ a, a ≠ "a" → objLookup s2.playlists a = objLookup statePl.playlists a)) ∧
    (∃ s2 pl2, handleAddTrackToPlaylist "fav" statePl 3 =
        some (s2, [(s2.playlists, s2.activePlaylistId)]) ∧
      s2.activePlaylistId = statePl.activePlaylistId ∧
      objLookup s2.playlists "a" = some pl2 ∧
      (samplePlaylist.trackIds.contains 3 = true →
        pl2.trackIds = samplePlaylist.trackIds) ∧
      (samplePlaylist.trackIds.contains 3 = false →
        pl2.trackIds = samplePlaylist.trackIds ++ [3]) ∧
      (samplePlaylist.trackIds.Nodup → pl2.trackIds.Nodup) ∧
      pl2.trackIds.contains 3 = true ∧
      (∀ a, a ≠ "a" → objLookup s2.playlists a = objLookup statePl.playlists a)) :=
  ⟨addTrack_set_semantics "fav" "a" statePl samplePlaylist 2 rfl
      (by decide) (by decide),
   addTrack_set_semantics "fav" "a" statePl samplePlaylist 3 rfl
      (by decide) (by decide)⟩

/-! ## Claim C9 -/

/-- `truthyStr` only returns ids it was given, and never the empty
string. -/
theorem truthyStr_spec (o : Option String) (a : String)
    (h : truthyStr o = some a) : o = some a ∧ a ≠ "" := by
  cases o with
  | none => simp [truthyStr] at h
  | some b =>
    rw [truthyStr] at h
    by_cases hb : b = ""
    · rw [if_pos hb] at h
      exact absurd h (by simp)
    · rw [if_neg hb] at h
      have : b = a := by simpa using h
      subst this
      exact ⟨rfl, hb⟩

/-- C9 counterexample: `load()` restores the stored `activePlaylistId`
without validating it against the stored playlists: after loading
`blobMismatch` (one playlist `"a"`, stored active id `"zzz"`), the
active id is `"zzz"`, which keys no playlist — the invariant fails. -/
theorem load_restores_invalid_active :
    (loadPlaylistsFromStorage "f" (some (some blobMismatch)) baseState).1.activePlaylistId
      = some "zzz" ∧
    "zzz" ∉ objKeys
      (loadPlaylistsFromStorage "f" (some (some blobMismatch)) baseState).1.playlists ∧
    ¬ activeValid (loadPlaylistsFromStorage "f" (some (some blobMismatch)) baseState).1 := by
  refine ⟨by decide, by decide, fun hv => ?_⟩
  exact absurd (hv "zzz" (by decide)) (by decide)

/-- C9 amended: the invariant "a truthy `activePlaylistId` keys an
existing playlist" holds after every Playlist Store operation except the
unvalidated restore the claim asserts away: it holds after `load()` from
absent storage, after `load()` from corrupt storage (given it held
before), after `load()` of a blob whose truthy stored active id is among
the stored keys (absent or empty stored ids fall back to the first
stored key), after `createPlaylist`, after `addTrack` (which then also
returns without throwing), after selecting an existing playlist, and
`save()` leaves the state untouched.  A blob with a truthy stored active
id not among its keys violates the invariant (see the
counterexample). -/
theorem store_ops_preserve_active_valid (s : PlayerState)
    (freshId nid pid : String) (name : Option String) (k : Nat)
    (blob : StorageBlob) (hinv : activeValid s) :
    activeValid (loadPlaylistsFromStorage freshId none s).1 ∧
    activeValid (loadPlaylistsFromStorage freshId (some none) s).1 ∧
    ((∀ a, truthyStr blob.activePlaylistId = some a →
        a ∈ objKeys (blob.playlists.getD [])) →
      activeValid (loadPlaylistsFromStorage freshId (some (some blob)) s).1) ∧
    activeValid (createNewPlaylist name nid s).1 ∧
    (∃ r, handleAddTrackToPlaylist freshId s k = some r ∧ activeValid r.1) ∧
    (pid ∈ objKeys s.playlists → activeValid (selectPlaylist s pid).1) ∧
    (savePlaylistsToStorage s).1 = s := by
  refine ⟨?_, hinv, ?_, ?_, ?_, ?_, rfl⟩
  · intro a ha
    rcases truthyStr_spec _ _ ha with ⟨ha1, _⟩
    have hred : (loadPlaylistsFromStorage freshId none s).1.activePlaylistId =
        some freshId := rfl
    rw [hred] at ha1
    have haf : a = freshId := by simpa using ha1.symm
    rw [haf]
    show freshId ∈ objKeys (objSet s.playlists freshId ⟨freshId, "Favorites", []⟩)
    exact (mem_objKeys_objSet _ _ _ _).mpr (Or.inl rfl)
  · intro hblob a ha
    show a ∈ objKeys (blob.playlists.getD [])
    rcases hb : truthyStr blob.activePlaylistId with _ | b
    · have hactive :
          (loadPlaylistsFromStorage freshId (some (some blob)) s).1.activePlaylistId =
            (objKeys (blob.playlists.getD [])).head? := by
        show (match truthyStr blob.activePlaylistId with
          | some a => some a
          | none => (objKeys (blob.playlists.getD [])).head?) =
          (objKeys (blob.playlists.getD [])).head?
        rw [hb]
      rw [show truthyStr
            (loadPlaylistsFromStorage freshId (some (some blob)) s).1.activePlaylistId =
          truthyStr ((objKeys (blob.playlists.getD [])).head?) from by rw [hactive]] at ha
      rcases truthyStr_spec _ _ ha with ⟨ha1, _⟩
      cases hkeys : objKeys (blob.playlists.getD []) with
      | nil => rw [hkeys] at ha1; simp at ha1
      | cons x xs =>
        rw [hkeys] at ha1
        have hxa : x = a := by simpa using ha1
        subst hxa
        exact List.mem_cons_self _ _
    · have hactive :
          (loadPlaylistsFromStorage freshId (some (some blob)) s).1.activePlaylistId =
            some b := by
        show (match truthyStr blob.activePlaylistId with
          | some a => some a
          | none => (objKeys (blob.playlists.getD [])).head?) = some b
        rw [hb]
      rw [show truthyStr
            (loadPlaylistsFromStorage freshId (some (some blob)) s).1.activePlaylistId =
          truthyStr (some b) from by rw [hactive]] at ha
      rcases truthyStr_spec _ _ ha with ⟨ha1, _⟩
      have hba : b = a := by simpa using ha1
      subst hba
      exact hblob b hb
  · rcases hn : truthyStr name with _ | n
    · have hred : createNewPlaylist name nid s = (s, []) := by
        rw [createNewPlaylist, hn]
      rw [hred]
      exact hinv
    · have hred : (createNewPlaylist name nid s).1 =
          { s with playlists := objSet s.playlists nid ⟨nid, n.trim, []⟩
                   activePlaylistId := some nid } := by
        rw [createNewPlaylist, hn]
      rw [hred]
      intro a ha
      rcases truthyStr_spec _ _ ha with ⟨ha1, _⟩
      have haf : a = nid := by simpa using ha1.symm
      rw [haf]
      exact (mem_objKeys_objSet _ _ _ _).mpr (Or.inl rfl)
  · rcases ht : truthyStr s.activePlaylistId with _ | tid
    · cases hkeys : objKeys s.playlists with
      | nil =>
        have hres1 : resolveAddTarget freshId s =
            ({ s with playlists := objSet s.playlists freshId ⟨freshId, "Favorites", []⟩
                      activePlaylistId := some freshId }, freshId) := by
          rw [resolveAddTarget, ht, hkeys]
        have hpl' : objLookup (resolveAddTarget freshId s).1.playlists
            (resolveAddTarget freshId s).2 =
            some (⟨freshId, "Favorites", []⟩ : Playlist) := by
          rw [hres1]
          exact objLookup_objSet_self _ _ _
        refine ⟨_, handleAdd_eq freshId s k _ hpl', ?_⟩
        intro a ha
        rcases truthyStr_spec _ _ ha with ⟨ha1, _⟩
        have hact2 : (addResult freshId s k ⟨freshId, "Favorites", []⟩).activePlaylistId =
            some freshId := by
          rw [addResult, hres1]
        rw [hact2] at ha1
        have haf : a = freshId := by simpa using ha1.symm
        rw [haf]
        obtain ⟨pl2, hpl2⟩ : ∃ pl2 : Playlist,
            pl2 = (if ([] : List Nat).contains k
                   then (⟨freshId, "Favorites", []⟩ : Playlist)
                   else ⟨freshId, "Favorites", [] ++ [k]⟩) := ⟨_, rfl⟩
        have hpls2 : (addResult freshId s k ⟨freshId, "Favorites", []⟩).playlists =
            objSet (objSet s.playlists freshId ⟨freshId, "Favorites", []⟩) freshId pl2 := by
          rw [addResult, hres1, ← hpl2]
        rw [hpls2]
        exact (mem_objKeys_objSet _ _ _ _).mpr (Or.inl rfl)
      | cons firstId rest =>
        have hmem : firstId ∈ objKeys s.playlists := by
          rw [hkeys]
          exact List.mem_cons_self _ _
        rcases objLookup_isSome_of_mem _ _ hmem with ⟨pl, hpl⟩
        have hres1 : resolveAddTarget freshId s =
            ({ s with activePlaylistId := some firstId }, firstId) := by
          rw [resolveAddTarget, ht, hkeys]
        have hpl' : objLookup (resolveAddTarget freshId s).1.playlists
            (resolveAddTarget freshId s).2 = some pl := by
          rw [hres1]
          exact hpl
        refine ⟨_, handleAdd_eq freshId s k pl hpl', ?_⟩
        intro a ha
        rcases truthyStr_spec _ _ ha with ⟨ha1, _⟩
        have hact2 : (addResult freshId s k pl).activePlaylistId = some firstId := by
          rw [addResult, hres1]
        rw [hact2] at ha1
        have haf : a = firstId := by simpa using ha1.symm
        rw [haf]
        obtain ⟨pl2, hpl2⟩ : ∃ pl2 : Playlist,
            pl2 = (if pl.trackIds.contains k then pl
                   else { pl with trackIds := pl.trackIds ++ [k] }) := ⟨_, rfl⟩
        have hpls2 : (addResult freshId s k pl).playlists =
            objSet s.playlists firstId pl2 := by
          rw [addResult, hres1, ← hpl2]
        rw [hpls2]
        exact (mem_objKeys_objSet _ _ _ _).mpr (Or.inl rfl)
    · have hmem : tid ∈ objKeys s.playlists := hinv tid ht
      rcases objLookup_isSome_of_mem _ _ hmem with ⟨pl, hpl⟩
      have hres1 : resolveAddTarget freshId s = (s, tid) := by
        rw [resolveAddTarget, ht]
      have hpl' : objLookup (resolveAddTarget freshId s).1.playlists
          (resolveAddTarget freshId s).2 = some pl := by
        rw [hres1]
        exact hpl
      refine ⟨_, handleAdd_eq freshId s k pl hpl', ?_⟩
      intro a ha
      rcases truthyStr_spec _ _ ha with ⟨ha1, _⟩
      have hact2 : (addResult freshId s k pl).activePlaylistId =
          s.activePlaylistId := by
        rw [addResult, hres1]
      rw [hact2] at ha1
      have hsa : s.activePlaylistId = some tid := (truthyStr_spec _ _ ht).1
      rw [hsa] at ha1
      have haf : a = tid := by simpa using ha1.symm
      rw [haf]
      obtain ⟨pl2, hpl2⟩ : ∃ pl2 : Playlist,
          pl2 = (if pl.trackIds.contains k then pl
                 else { pl with trackIds := pl.trackIds ++ [k] }) := ⟨_, rfl⟩
      have hpls2 : (addResult freshId s k pl).playlists =
          objSet s.playlists tid pl2 := by
        rw [addResult, hres1, ← hpl2]
      rw [hpls2]
      exact (mem_objKeys_objSet _ _ _ _).mpr (Or.inl rfl)
  · intro hpid a ha
    rcases truthyStr_spec _ _ ha with ⟨ha1, _⟩
    have hred : (selectPlaylist s pid).1.activePlaylistId = some pid := rfl
    rw [hred] at ha1
    have haf : a = pid := by simpa using ha1.symm
    rw [haf]
    show pid ∈ objKeys s.playlists
    exact hpid

/-- C9 witness: the state whose single playlist `"a"` is active, with
concrete ids and a well-formed blob. -/
theorem store_ops_preserve_active_valid_witness :
    activeValid statePl ∧
    (activeValid (loadPlaylistsFromStorage "f" none statePl).1 ∧
    activeValid (loadPlaylistsFromStorage "f" (some none) statePl).1 ∧
    ((∀ a, truthyStr blobGood.activePlaylistId = some a →
        a ∈ objKeys (blobGood.playlists.getD [])) →
      activeValid (loadPlaylistsFromStorage "f" (some (some blobGood)) statePl).1) ∧
    activeValid (createNewPlaylist (some "Road trip") "n" statePl).1 ∧
    (∃ r, handleAddTrackToPlaylist "f" statePl 7 = some r ∧ activeValid r.1) ∧
    ("a" ∈ objKeys statePl.playlists →
      activeValid (selectPlaylist statePl "a").1) ∧
    (savePlaylistsToStorage statePl).1 = statePl) := by
  have hinv : activeValid statePl := by
    intro a ha
    have h1 := (truthyStr_spec _ _ ha).1
    have h2 : statePl.activePlaylistId = some "a" := rfl
    rw [h2] at h1
    have : a = "a" := by simpa using h1.symm
    subst this
    decide
  exact ⟨hinv, store_ops_preserve_active_valid statePl "f" "n" "a"
    (some "Road trip") 7 blobGood hinv⟩

end Symphonia
